import Mathlib

/-!
Verification development for a small document-scanning utility
(multi-document KSB mapper).  The Python source extracts plain text from
uploaded PDF and Word documents, runs a whole-word case-insensitive
regular-expression search for each user-supplied KSB code, aggregates the
match records into one table, sorts it by (Document, KSB Reference), and
exports it as XLSX and CSV.  The definitions below are a shallow embedding
of that source; the theorems settle the specification claims about it.
-/

/-! ## Word characters and case-insensitive comparison

The source matches each term with the pattern built by concatenating a
word-boundary anchor, the escaped term, and another word-boundary anchor,
compiled with the IGNORECASE flag.  We model the ASCII fragment of that
semantics: a word character is a letter, a digit or an underscore, and
case folding maps the codes 65..90 to 97..122. -/

def lowerCode (n : Nat) : Nat :=
  if 65 ≤ n ∧ n ≤ 90 then n + 32 else n

def isWordCode (n : Nat) : Bool :=
  decide ((48 ≤ n ∧ n ≤ 57) ∨ (65 ≤ n ∧ n ≤ 90) ∨ (97 ≤ n ∧ n ≤ 122) ∨ n = 95)

def isWordChar (c : Char) : Bool := isWordCode c.toNat

def ciEq (a b : Char) : Bool := lowerCode a.toNat == lowerCode b.toNat

/-- The term (first list) occurs, case-insensitively, at the start of the
text (second list). -/
def ciStarts : List Char → List Char → Bool
  | [], _ => true
  | _ :: _, [] => false
  | a :: as, b :: bs => ciEq a b && ciStarts as bs

/-- True when position i of the text holds a word character. -/
def isWordAt (text : List Char) (i : Nat) : Bool :=
  match text.drop i with
  | c :: _ => isWordChar c
  | [] => false

/-- True when the character immediately before position i is a word
character (false at the start of the text). -/
def leftWordAt (text : List Char) (i : Nat) : Bool :=
  match i with
  | 0 => false
  | j + 1 => isWordAt text j

/-- The word-boundary test of the pattern language at position i: exactly
one side of the position holds a word character. -/
def boundaryAt (text : List Char) (i : Nat) : Bool :=
  leftWordAt text i != isWordAt text i

/-- Embedding of searching the text for the pattern that anchors the
escaped term between two word boundaries, with case folding: some
position admits a boundary, a case-insensitive occurrence of the term,
and a boundary after it.  Escaping makes every term character literal,
so the term is matched verbatim. -/
def reWordSearch (term text : List Char) : Bool :=
  (List.range (text.length + 1)).any fun i =>
    boundaryAt text i && ciStarts term (text.drop i) && boundaryAt text (i + term.length)

/-- String-level wrapper used by the extraction functions. -/
def wordSearch (term text : String) : Bool :=
  reWordSearch term.data text.data

/-- Modelled from the spec: the term occurs as a standalone word, i.e. a
case-insensitive occurrence whose neighbouring characters (when they
exist) are not word characters, so the occurrence is not part of a longer
token. -/
def standaloneAt (term text : List Char) (i : Nat) : Bool :=
  ciStarts term (text.drop i) && !leftWordAt text i && !isWordAt text (i + term.length)

/-- Modelled from the spec: some position of the text carries a
standalone-word occurrence of the term. -/
def specStandaloneSearch (term text : String) : Bool :=
  (List.range (text.data.length + 1)).any (standaloneAt term.data text.data)

/-! ## Basic lemmas about the matcher -/

theorem lowerCode_isWordCode {a b : Nat} (h : lowerCode a = lowerCode b) :
    isWordCode a = isWordCode b := by
  simp only [isWordCode, decide_eq_decide]
  simp only [lowerCode] at h
  split_ifs at h <;> omega

theorem ciEq_isWordChar {a b : Char} (h : ciEq a b = true) :
    isWordChar a = isWordChar b := by
  simp only [ciEq, beq_iff_eq] at h
  exact lowerCode_isWordCode h

theorem isWordAt_cons_zero (c : Char) (cs : List Char) :
    isWordAt (c :: cs) 0 = isWordChar c := rfl

theorem isWordAt_cons_succ (c : Char) (cs : List Char) (j : Nat) :
    isWordAt (c :: cs) (j + 1) = isWordAt cs j := by
  simp [isWordAt]

theorem ciStarts_isWordAt :
    ∀ (t u : List Char), ciStarts t u = true →
      ∀ j, j < t.length → isWordAt u j = isWordAt t j := by
  intro t
  induction t with
  | nil => intro u _ j hj; simp at hj
  | cons a as ih =>
    intro u h j hj
    cases u with
    | nil => simp [ciStarts] at h
    | cons b bs =>
      simp only [ciStarts, Bool.and_eq_true] at h
      cases j with
      | zero =>
        simp only [isWordAt_cons_zero]
        exact (ciEq_isWordChar h.1).symm
      | succ j =>
        simp only [isWordAt_cons_succ]
        exact ih bs h.2 j (by simpa using hj)

theorem isWordAt_drop (u : List Char) (i j : Nat) :
    isWordAt (u.drop i) j = isWordAt u (i + j) := by
  simp only [isWordAt, List.drop_drop, Nat.add_comm j i]

/-- Pointwise comparison of the regex position test with the spec's
standalone-word position test, for a term whose first and last characters
are word characters. -/
theorem boundary_eq_standalone_at (t u : List Char) (i : Nat)
    (hne : t ≠ [])
    (hfirst : isWordAt t 0 = true)
    (hlast : isWordAt t (t.length - 1) = true) :
    (boundaryAt u i && ciStarts t (u.drop i) && boundaryAt u (i + t.length))
      = standaloneAt t u i := by
  cases hci : ciStarts t (u.drop i) with
  | false => simp [standaloneAt, hci]
  | true =>
    have hlen : 0 < t.length := List.length_pos.mpr hne
    have hw0 : isWordAt u i = true := by
      have := ciStarts_isWordAt t (u.drop i) hci 0 hlen
      rw [isWordAt_drop] at this
      simpa [hfirst] using this
    have hwl : leftWordAt u (i + t.length) = true := by
      obtain ⟨k, hk⟩ : ∃ k, t.length = k + 1 :=
        ⟨t.length - 1, (Nat.succ_pred_eq_of_pos hlen).symm⟩
      have hkl : k < t.length := by omega
      have h1 := ciStarts_isWordAt t (u.drop i) hci k hkl
      rw [isWordAt_drop] at h1
      have h2 : isWordAt t k = true := by
        have hk' : t.length - 1 = k := by omega
        rwa [hk'] at hlast
      have h3 : i + t.length = (i + k) + 1 := by omega
      rw [h3]
      simpa only [leftWordAt] using h1.trans h2
    simp only [standaloneAt, hci, boundaryAt, hw0, hwl, Bool.true_and]
    cases leftWordAt u i <;> cases isWordAt u (i + t.length) <;> rfl

theorem list_any_congr {α : Type} {p q : α → Bool} :
    ∀ (l : List α), (∀ a ∈ l, p a = q a) → l.any p = l.any q := by
  intro l
  induction l with
  | nil => intro _; rfl
  | cons a as ih =>
    intro h
    simp only [List.any_cons, h a (List.mem_cons_self a as),
      ih fun b hb => h b (List.mem_cons_of_mem a hb)]

/-- For a term whose first and last characters are word characters, the
word-boundary regex search agrees exactly with the spec's standalone-word
occurrence test. -/
theorem wordSearch_eq_standalone (term text : String)
    (hne : term.data ≠ [])
    (hfirst : isWordAt term.data 0 = true)
    (hlast : isWordAt term.data (term.data.length - 1) = true) :
    wordSearch term text = specStandaloneSearch term text := by
  unfold wordSearch reWordSearch specStandaloneSearch
  exact list_any_congr _ fun i _ =>
    boundary_eq_standalone_at term.data text.data i hne hfirst hlast

/-! ## Data model

A match record is one row of the output table: the document name, the
matched KSB reference, and a page locator that is a 1-based integer for
PDF pages or the sentinel marker (the string written as N/A (Word)) for
Word documents. -/

inductive PageNum where
  | page : Nat → PageNum
  | na : PageNum
deriving DecidableEq

structure MatchRecord where
  document : String
  ksbRef : String
  pageNumber : PageNum
deriving DecidableEq

/-! ## Text extraction and matching

Embedding of the function extract_mappings_pdf of the source.  A PDF is
modelled as the list of per-page extraction results: none when the page
yields no text object, some s for extracted text s (the source treats
none and the empty string alike, both being falsy).  The loop enumerates
pages from index 0, records one row per term found on a page with the
1-based page number, and after every page (empty or not) updates the
progress bar with the fraction whose numerator is the 1-based index and
whose denominator is the total page count; we record those two integers
for each update. -/

def pdf_scan_go (title : String) (terms : List String) (total : Nat) :
    Nat → List (Option String) → List MatchRecord × List (Nat × Nat)
  | _, [] => ([], [])
  | i, p :: rest =>
    let here : List MatchRecord :=
      match p with
      | none => []
      | some t =>
        if t = "" then []
        else
          (terms.filter fun term => wordSearch term t).map fun term =>
            { document := title, ksbRef := term, pageNumber := PageNum.page (i + 1) }
    let next := pdf_scan_go title terms total (i + 1) rest
    (here ++ next.1, (i + 1, total) :: next.2)

/-- The per-run result of the PDF extractor: the match records and the
sequence of progress updates, one per page. -/
def pdf_scan (pages : List (Option String)) (terms : List String)
    (title : String) : List MatchRecord × List (Nat × Nat) :=
  pdf_scan_go title terms pages.length 0 pages

def extract_mappings_pdf (pages : List (Option String)) (terms : List String)
    (title : String) : List MatchRecord :=
  (pdf_scan pages terms title).1

/-- Embedding of extract_mappings_docx: the paragraph texts are joined in
document order with newline separators into one blob, and each term found
in the blob yields one row carrying the sentinel page marker. -/
def extract_mappings_docx (paragraphs : List String) (terms : List String)
    (title : String) : List MatchRecord :=
  (terms.filter fun term =>
      wordSearch term (String.intercalate "\n" paragraphs)).map fun term =>
    { document := title, ksbRef := term, pageNumber := PageNum.na }

/-! ## Characterizations of the PDF scan -/

theorem pdf_scan_go_cons (title : String) (terms : List String) (total i : Nat)
    (p : Option String) (rest : List (Option String)) :
    pdf_scan_go title terms total i (p :: rest) =
      ((match p with
        | none => []
        | some t =>
          if t = "" then []
          else
            (terms.filter fun term => wordSearch term t).map fun term =>
              { document := title, ksbRef := term, pageNumber := PageNum.page (i + 1) })
          ++ (pdf_scan_go title terms total (i + 1) rest).1,
        (i + 1, total) :: (pdf_scan_go title terms total (i + 1) rest).2) := rfl

/-- Progress updates of the scan: one per page, in physical order, each
carrying the 1-based page index and the total page count. -/
theorem pdf_scan_go_progress (title : String) (terms : List String) (total : Nat) :
    ∀ (pages : List (Option String)) (i : Nat),
      (pdf_scan_go title terms total i pages).2 =
        (List.range pages.length).map fun k => (i + k + 1, total) := by
  intro pages
  induction pages with
  | nil => intro i; rfl
  | cons p rest ih =>
    intro i
    rw [pdf_scan_go_cons]
    simp only [List.length_cons, List.range_succ_eq_map, List.map_cons, List.map_map]
    refine congrArg₂ _ (by simp) ?_
    rw [ih (i + 1)]
    refine List.map_congr_left fun k _ => ?_
    simp [Function.comp]
    omega

/-- Membership characterization of the records produced by the PDF scan
loop started at index i: a record is produced exactly when some page j of
the remaining pages yields text s that is nonempty, the record's term is
one of the search terms, the whole-word search finds it in s, and the
record carries the document title and the 1-based page number i + j + 1. -/
theorem mem_pdf_scan_go (title : String) (terms : List String) (total : Nat) :
    ∀ (pages : List (Option String)) (i : Nat) (r : MatchRecord),
      r ∈ (pdf_scan_go title terms total i pages).1 ↔
        ∃ j s, pages[j]? = some (some s) ∧ s ≠ "" ∧
          r.document = title ∧ r.ksbRef ∈ terms ∧ wordSearch r.ksbRef s = true ∧
          r.pageNumber = PageNum.page (i + j + 1) := by
  intro pages
  induction pages with
  | nil =>
    intro i r
    simp [pdf_scan_go]
  | cons p rest ih =>
    intro i r
    rw [pdf_scan_go_cons]
    simp only [List.mem_append]
    constructor
    · intro hmem
      rcases hmem with hhead | htail
      · cases p with
        | none => simp at hhead
        | some t =>
          by_cases ht : t = ""
          · simp [ht] at hhead
          · simp only [if_neg ht, List.mem_map, List.mem_filter] at hhead
            obtain ⟨term, ⟨hterm, hws⟩, hr⟩ := hhead
            subst hr
            exact ⟨0, t, by simp, ht, rfl, hterm, hws, by simp⟩
      · obtain ⟨j, s, h1, h2, h3, h4, h5, h6⟩ := (ih (i + 1) r).mp htail
        exact ⟨j + 1, s, by simpa using h1, h2, h3, h4, h5, by rw [h6]; congr 1; omega⟩
    · rintro ⟨j, s, h1, h2, h3, h4, h5, h6⟩
      cases j with
      | zero =>
        left
        simp only [List.getElem?_cons_zero, Option.some.injEq] at h1
        subst h1
        simp only [if_neg h2, List.mem_map, List.mem_filter]
        refine ⟨r.ksbRef, ⟨h4, h5⟩, ?_⟩
        cases r
        simp_all
      | succ j =>
        right
        refine (ih (i + 1) r).mpr ⟨_, s, by simpa using h1, h2, h3, h4, h5, by rw [h6]; congr 1; omega⟩

/-! ## Per-page hit predicate -/

/-- The text the extractor would match on physical page p (1-based): none
when the page index is out of range or the page yields no text. -/
def pageTextAt (pages : List (Option String)) (p : Nat) : Option String :=
  if p = 0 then none
  else
    match pages.drop (p - 1) with
    | (some s) :: _ => if s = "" then none else some s
    | _ => none

/-- Whether the term t is found (whole word, case-insensitive) on physical
page p of the given pages. -/
def pdfPageHit (pages : List (Option String)) (t : String) (p : Nat) : Bool :=
  match pageTextAt pages p with
  | some s => wordSearch t s
  | none => false

theorem pageTextAt_nil (p : Nat) : pageTextAt [] p = none := by
  unfold pageTextAt
  split
  · rfl
  · simp

theorem pageTextAt_cons_one_none (rest : List (Option String)) :
    pageTextAt (none :: rest) 1 = none := rfl

theorem pageTextAt_cons_one_some (s : String) (rest : List (Option String)) :
    pageTextAt (some s :: rest) 1 = if s = "" then none else some s := rfl

theorem pageTextAt_cons_succ (q : Option String) (rest : List (Option String))
    (p : Nat) (h : 1 ≤ p) :
    pageTextAt (q :: rest) (p + 1) = pageTextAt rest p := by
  unfold pageTextAt
  have h1 : ¬(p + 1 = 0) := by omega
  have h2 : ¬(p = 0) := by omega
  rw [if_neg h1, if_neg h2]
  have h3 : p + 1 - 1 = (p - 1) + 1 := by omega
  rw [h3, List.drop_succ_cons]

theorem pdfPageHit_nil (t : String) (p : Nat) : pdfPageHit [] t p = false := by
  simp [pdfPageHit, pageTextAt_nil]

theorem pdfPageHit_cons_succ (q : Option String) (rest : List (Option String))
    (t : String) (p : Nat) (h : 1 ≤ p) :
    pdfPageHit (q :: rest) t (p + 1) = pdfPageHit rest t p := by
  simp [pdfPageHit, pageTextAt_cons_succ q rest p h]

/-! ## Counting records per (term, page) -/

theorem countP_beq_nodup (l : List String) (a : String) (hnd : l.Nodup) :
    l.countP (fun x => x == a) = if a ∈ l then 1 else 0 := by
  induction l with
  | nil => simp
  | cons b bs ih =>
    rw [List.nodup_cons] at hnd
    rw [List.countP_cons]
    by_cases hab : b = a
    · subst hab
      have hz : bs.countP (fun x => x == b) = 0 :=
        List.countP_eq_zero.mpr fun x hx hbeq => hnd.1 ((beq_iff_eq.mp hbeq) ▸ hx)
      rw [hz, if_pos (by simp), if_pos (List.mem_cons_self b bs)]
    · rw [if_neg (by simp [hab]), ih hnd.2, Nat.add_zero,
        if_congr (List.mem_cons.trans (or_iff_right fun h => hab h.symm)) rfl rfl]

theorem countP_beq_filter_nodup (l : List String) (a : String) (g : String → Bool)
    (hnd : l.Nodup) :
    (l.filter g).countP (fun x => x == a) = if a ∈ l ∧ g a = true then 1 else 0 := by
  rw [List.countP_filter]
  by_cases hg : g a = true
  · have hcongr : List.countP (fun x => x == a && g x) l = List.countP (fun x => x == a) l :=
      List.countP_congr fun x _ => by
        constructor
        · intro h
          simp only [Bool.and_eq_true] at h
          exact h.1
        · intro h
          simp only [Bool.and_eq_true, beq_iff_eq] at h ⊢
          exact ⟨h, by rw [h]; exact hg⟩
    rw [hcongr, countP_beq_nodup l a hnd]
    by_cases hm : a ∈ l <;> simp [hm, hg]
  · have hz : List.countP (fun x => x == a && g x) l = 0 :=
      List.countP_eq_zero.mpr fun x hx h => by
        simp only [Bool.and_eq_true, beq_iff_eq] at h
        exact hg (h.1 ▸ h.2)
    rw [hz, if_neg (by tauto)]

theorem pdf_scan_fst_cons_none (title : String) (terms : List String) (total i : Nat)
    (rest : List (Option String)) :
    (pdf_scan_go title terms total i (none :: rest)).1 =
      (pdf_scan_go title terms total (i + 1) rest).1 := rfl

theorem pdf_scan_fst_cons_some (title : String) (terms : List String) (total i : Nat)
    (s : String) (rest : List (Option String)) :
    (pdf_scan_go title terms total i (some s :: rest)).1 =
      (if s = "" then []
       else
         (terms.filter fun term => wordSearch term s).map fun term =>
           { document := title, ksbRef := term, pageNumber := PageNum.page (i + 1) })
        ++ (pdf_scan_go title terms total (i + 1) rest).1 := rfl

/-- Exact multiplicity of the PDF records for a given (term, page) pair,
assuming the supplied term list has no duplicates: one when the term is
among the search terms and is found on that physical page, zero
otherwise. -/
theorem countP_pdf_scan_go (title k : String) (terms : List String) (total : Nat)
    (hnd : terms.Nodup) (p : Nat) :
    ∀ (pages : List (Option String)) (i : Nat),
      ((pdf_scan_go title terms total i pages).1.countP
          fun r => r.ksbRef == k && r.pageNumber == PageNum.page p)
        = if k ∈ terms ∧ i < p ∧ pdfPageHit pages k (p - i) = true then 1 else 0 := by
  intro pages
  induction pages with
  | nil =>
    intro i
    simp [pdf_scan_go, pdfPageHit_nil]
  | cons q rest ih =>
    intro i
    by_cases hip : i + 1 = p
    · subst hip
      have htail : ¬(k ∈ terms ∧ i + 1 < i + 1 ∧ pdfPageHit rest k (i + 1 - (i + 1)) = true) := by
        rintro ⟨_, h2, _⟩; omega
      have hsub : i + 1 - i = 1 := by omega
      cases q with
      | none =>
        rw [pdf_scan_fst_cons_none, ih (i + 1), if_neg htail, hsub]
        have hh : pdfPageHit (none :: rest) k 1 = false := by
          simp [pdfPageHit, pageTextAt_cons_one_none]
        simp [hh]
      | some s =>
        rw [pdf_scan_fst_cons_some, List.countP_append, ih (i + 1), if_neg htail,
          Nat.add_zero, hsub]
        by_cases hs : s = ""
        · rw [if_pos hs]
          have hh : pdfPageHit (some s :: rest) k 1 = false := by
            subst hs; simp [pdfPageHit, pageTextAt_cons_one_some]
          simp [hh]
        · rw [if_neg hs]
          have hh : pdfPageHit (some s :: rest) k 1 = wordSearch k s := by
            simp [pdfPageHit, pageTextAt_cons_one_some, hs]
          rw [List.countP_map]
          have hpred : List.countP
              ((fun r : MatchRecord => r.ksbRef == k && r.pageNumber == PageNum.page (i + 1)) ∘
                fun term => { document := title, ksbRef := term, pageNumber := PageNum.page (i + 1) })
              (terms.filter fun term => wordSearch term s)
              = List.countP (fun x => x == k) (terms.filter fun term => wordSearch term s) :=
            List.countP_congr fun x _ => by simp [Function.comp]
          rw [hpred, countP_beq_filter_nodup terms k _ hnd, hh]
          refine if_congr ?_ rfl rfl
          constructor
          · rintro ⟨h1, h2⟩; exact ⟨h1, by omega, h2⟩
          · rintro ⟨h1, _, h2⟩; exact ⟨h1, h2⟩
    · have tailstep :
          (if k ∈ terms ∧ i + 1 < p ∧ pdfPageHit rest k (p - (i + 1)) = true then 1 else 0)
            = if k ∈ terms ∧ i < p ∧ pdfPageHit (q :: rest) k (p - i) = true then 1 else 0 := by
        by_cases hlt : i < p
        · have hone : 1 ≤ p - (i + 1) := by omega
          have hpi : p - i = p - (i + 1) + 1 := by omega
          refine if_congr ?_ rfl rfl
          rw [hpi, pdfPageHit_cons_succ q rest k _ hone]
          constructor
          · rintro ⟨hm, _, hh⟩; exact ⟨hm, hlt, hh⟩
          · rintro ⟨hm, _, hh⟩; exact ⟨hm, by omega, hh⟩
        · rw [if_neg (by rintro ⟨_, h2, _⟩; omega), if_neg (by rintro ⟨_, h2, _⟩; omega)]
      have hpage : (PageNum.page (i + 1) == PageNum.page p) = false :=
        beq_eq_false_iff_ne.mpr (by simpa using hip)
      cases q with
      | none =>
        rw [pdf_scan_fst_cons_none, ih (i + 1)]
        exact tailstep
      | some s =>
        rw [pdf_scan_fst_cons_some, List.countP_append, ih (i + 1)]
        by_cases hs : s = ""
        · rw [if_pos hs]
          simpa using tailstep
        · rw [if_neg hs, List.countP_map,
            List.countP_eq_zero.mpr (fun a _ h => by simp [Function.comp, hpage] at h),
            Nat.zero_add]
          exact tailstep

/-! ## Characterizations of the Word extractor -/

theorem mem_extract_docx (paragraphs terms : List String) (title : String)
    (r : MatchRecord) :
    r ∈ extract_mappings_docx paragraphs terms title ↔
      r.document = title ∧ r.pageNumber = PageNum.na ∧ r.ksbRef ∈ terms ∧
        wordSearch r.ksbRef (String.intercalate "\n" paragraphs) = true := by
  unfold extract_mappings_docx
  simp only [List.mem_map, List.mem_filter]
  constructor
  · rintro ⟨term, ⟨hterm, hws⟩, hr⟩
    subst hr
    exact ⟨rfl, rfl, hterm, hws⟩
  · rintro ⟨h1, h2, h3, h4⟩
    refine ⟨r.ksbRef, ⟨h3, h4⟩, ?_⟩
    cases r
    simp_all

theorem countP_extract_docx (title k : String) (paragraphs terms : List String)
    (hnd : terms.Nodup) :
    (extract_mappings_docx paragraphs terms title).countP (fun r => r.ksbRef == k)
      = if k ∈ terms ∧ wordSearch k (String.intercalate "\n" paragraphs) = true
        then 1 else 0 := by
  unfold extract_mappings_docx
  rw [List.countP_map]
  have hpred : List.countP
      ((fun r : MatchRecord => r.ksbRef == k) ∘
        fun term => { document := title, ksbRef := term, pageNumber := PageNum.na })
      (terms.filter fun term => wordSearch term (String.intercalate "\n" paragraphs))
      = List.countP (fun x => x == k)
          (terms.filter fun term => wordSearch term (String.intercalate "\n" paragraphs)) :=
    List.countP_congr fun x _ => by simp [Function.comp]
  rw [hpred, countP_beq_filter_nodup terms k _ hnd]

/-! ## Aggregation sort

Embedding of sorting the aggregated data frame by the two columns
Document then KSB Reference.  With more than one sort key the data-frame
library performs a lexicographic sort that is stable, so we model it as a
stable sort (insertion sort) under the lexicographic key order; any two
stable sorts under the same total preorder agree. -/

def keyLE (a b : MatchRecord) : Prop :=
  a.document < b.document ∨ (a.document = b.document ∧ a.ksbRef ≤ b.ksbRef)

instance keyLE.decRel : DecidableRel keyLE := fun a b => by
  unfold keyLE
  infer_instance

/-- The sort key of a record: the Document column then the KSB Reference
column. -/
def recKey (r : MatchRecord) : String × String := (r.document, r.ksbRef)

def sort_values (l : List MatchRecord) : List MatchRecord :=
  List.insertionSort keyLE l

theorem keyLE_total : ∀ a b, keyLE a b ∨ keyLE b a := by
  intro a b
  rcases lt_trichotomy a.document b.document with h | h | h
  · exact Or.inl (Or.inl h)
  · rcases le_total a.ksbRef b.ksbRef with h2 | h2
    · exact Or.inl (Or.inr ⟨h, h2⟩)
    · exact Or.inr (Or.inr ⟨h.symm, h2⟩)
  · exact Or.inr (Or.inl h)

theorem keyLE_trans : ∀ a b c, keyLE a b → keyLE b c → keyLE a c := by
  intro a b c hab hbc
  rcases hab with h1 | ⟨h1, h2⟩ <;> rcases hbc with h3 | ⟨h3, h4⟩
  · exact Or.inl (lt_trans h1 h3)
  · exact Or.inl (by rw [← h3]; exact h1)
  · exact Or.inl (by rw [h1]; exact h3)
  · exact Or.inr ⟨h1.trans h3, h2.trans h4⟩

instance : IsTotal MatchRecord keyLE := ⟨keyLE_total⟩

instance : IsTrans MatchRecord keyLE := ⟨keyLE_trans⟩

theorem keyLE_of_recKey_eq {a b : MatchRecord} (h : recKey a = recKey b) :
    keyLE a b := by
  unfold recKey at h
  rw [Prod.mk.injEq] at h
  exact Or.inr ⟨h.1, le_of_eq h.2⟩

theorem filter_orderedInsert_key (a : MatchRecord) (kk : String × String) :
    ∀ l : List MatchRecord,
      (List.orderedInsert keyLE a l).filter (fun r => decide (recKey r = kk))
        = if recKey a = kk
          then a :: l.filter (fun r => decide (recKey r = kk))
          else l.filter (fun r => decide (recKey r = kk)) := by
  intro l
  induction l with
  | nil =>
    by_cases h : recKey a = kk <;> simp [List.orderedInsert, List.filter, h]
  | cons b bs ih =>
    rw [List.orderedInsert]
    by_cases hab : keyLE a b
    · rw [if_pos hab]
      by_cases h : recKey a = kk <;> simp [List.filter_cons, h]
    · rw [if_neg hab]
      rw [List.filter_cons, List.filter_cons, ih]
      by_cases ha : recKey a = kk
      · have hb : ¬(recKey b = kk) := fun hb =>
          hab (keyLE_of_recKey_eq (ha.trans hb.symm))
        simp [ha, hb]
      · simp [ha]

theorem filter_key_sort_values (l : List MatchRecord) (kk : String × String) :
    (sort_values l).filter (fun r => decide (recKey r = kk))
      = l.filter (fun r => decide (recKey r = kk)) := by
  induction l with
  | nil => rfl
  | cons a as ih =>
    have ih' : (List.insertionSort keyLE as).filter (fun r => decide (recKey r = kk))
        = as.filter (fun r => decide (recKey r = kk)) := ih
    show (List.orderedInsert keyLE a (List.insertionSort keyLE as)).filter _ = _
    rw [filter_orderedInsert_key a kk (List.insertionSort keyLE as)]
    by_cases ha : recKey a = kk
    · rw [if_pos ha, ih', List.filter_cons]
      simp [ha]
    · rw [if_neg ha, ih', List.filter_cons]
      simp [ha]

/-! ## Multi-document driver

Embedding of the button handler of the source.  A document handle is a
file name together with what opening the file yields: the per-page texts
of a PDF, the paragraph texts of a Word file, or a parse failure carrying
the raised error message (a corrupt or unreadable file).  The per-file
term lists typed into the sidebar are modelled as a map from file name to
term list (the dictionary lookup with an empty-list default).  The body
of the handler wraps the WHOLE document loop in one exception handler, so
processing is sequential and the first raised error aborts the loop; we
model that with an error monad threaded through the loop.  Alongside the
accumulated records the embedding logs the name of every file an
extractor was actually invoked on. -/

inductive DocContent where
  | pdfPages : List (Option String) → DocContent
  | docxParas : List String → DocContent
  | corrupt : String → DocContent
deriving DecidableEq

structure DocFile where
  name : String
  content : DocContent
deriving DecidableEq

abbrev KsbMap := String → List String

/-- Opening a file with the PDF library: corrupt files raise their error,
and a file whose bytes are not a PDF raises as well. -/
def openPdf : DocContent → Except String (List (Option String))
  | DocContent.pdfPages ps => Except.ok ps
  | DocContent.corrupt e => Except.error e
  | DocContent.docxParas _ => Except.error "not a valid PDF file"

/-- Opening a file with the Word library: corrupt files raise their
error, and a file whose bytes are not a Word package raises as well. -/
def openDocx : DocContent → Except String (List String)
  | DocContent.docxParas ps => Except.ok ps
  | DocContent.corrupt e => Except.error e
  | DocContent.pdfPages _ => Except.error "not a valid Word file"

/-- Embedding of testing a file-name suffix: the last characters of the
name equal the extension. -/
def strEndsWith (s p : String) : Bool :=
  decide (p.data.length ≤ s.data.length)
    && s.data.drop (s.data.length - p.data.length) == p.data

/-- One iteration of the document loop: look up the file's terms (empty
list default), skip the file when the list is empty, otherwise dispatch
on the file-name extension, extract, and extend the accumulated rows.
The second accumulator component logs the files whose extractor ran. -/
def process_step (m : KsbMap) (acc : List MatchRecord × List String)
    (f : DocFile) : Except String (List MatchRecord × List String) :=
  if m f.name = [] then Except.ok acc
  else if strEndsWith f.name ".pdf" then
    match openPdf f.content with
    | Except.error e => Except.error e
    | Except.ok pages =>
      Except.ok (acc.1 ++ extract_mappings_pdf pages (m f.name) f.name,
        acc.2 ++ [f.name])
  else if strEndsWith f.name ".docx" then
    match openDocx f.content with
    | Except.error e => Except.error e
    | Except.ok paras =>
      Except.ok (acc.1 ++ extract_mappings_docx paras (m f.name) f.name,
        acc.2 ++ [f.name])
  else Except.ok acc

/-- The document loop inside the single try block: the first error aborts
the remaining iterations. -/
def scan_go (m : KsbMap) :
    List MatchRecord × List String → List DocFile →
      Except String (List MatchRecord × List String)
  | acc, [] => Except.ok acc
  | acc, f :: rest =>
    match process_step m acc f with
    | Except.error e => Except.error e
    | Except.ok acc2 => scan_go m acc2 rest

def scan_documents (files : List DocFile) (m : KsbMap) :
    Except String (List MatchRecord × List String) :=
  scan_go m ([], []) files

/-- Observable outcome of one button press: the missing-upload validation
error, the message shown by the exception handler, the empty-result
warning, or success carrying the sorted consolidated table. -/
inductive Outcome where
  | inputError : Outcome
  | errorMsg : String → Outcome
  | emptyWarning : Outcome
  | success : List MatchRecord → Outcome
deriving DecidableEq

/-- Embedding of the button handler: validate that files were uploaded,
run the document loop under the exception handler, then branch on whether
any results were collected. -/
def run_app (files : List DocFile) (m : KsbMap) : Outcome :=
  if files.isEmpty then Outcome.inputError
  else
    match scan_documents files m with
    | Except.error e => Outcome.errorMsg ("An error occurred: " ++ e)
    | Except.ok (results, _) =>
      if results.isEmpty then Outcome.emptyWarning
      else Outcome.success (sort_values results)

theorem scan_go_cons (m : KsbMap) (acc : List MatchRecord × List String)
    (f : DocFile) (rest : List DocFile) :
    scan_go m acc (f :: rest)
      = match process_step m acc f with
        | Except.error e => Except.error e
        | Except.ok acc2 => scan_go m acc2 rest := rfl

theorem scan_go_append (m : KsbMap) :
    ∀ (l1 l2 : List DocFile) (acc : List MatchRecord × List String),
      scan_go m acc (l1 ++ l2)
        = match scan_go m acc l1 with
          | Except.error e => Except.error e
          | Except.ok acc2 => scan_go m acc2 l2 := by
  intro l1
  induction l1 with
  | nil => intro l2 acc; rfl
  | cons f rest ih =>
    intro l2 acc
    show scan_go m acc (f :: (rest ++ l2)) = _
    rw [scan_go_cons, scan_go_cons]
    cases hstep : process_step m acc f with
    | error e => rfl
    | ok acc2 => exact ih l2 acc2

/-! ## Export writer

The CSV export is modelled at byte level: a header line, then one
UTF-8 comma-delimited line per record in table order, with minimal
quoting (a field is quoted when it contains the delimiter, a quote, or a
line break, and embedded quotes are doubled).  The XLSX export is
modelled at worksheet level: one sheet, a header row of text cells, then
one row per record with strings as text cells and PDF page numbers as
numeric cells. -/

inductive Cell where
  | str : String → Cell
  | num : Nat → Cell
deriving DecidableEq

def quoteChar : Char := Char.ofNat 34

def digitChar (n : Nat) : Char :=
  match n with
  | 0 => '0'
  | 1 => '1'
  | 2 => '2'
  | 3 => '3'
  | 4 => '4'
  | 5 => '5'
  | 6 => '6'
  | 7 => '7'
  | 8 => '8'
  | _ => '9'

def natRenderAux (n : Nat) : List Char :=
  if n < 10 then [digitChar n]
  else natRenderAux (n / 10) ++ [digitChar (n % 10)]
decreasing_by
  exact Nat.div_lt_self (by omega) (by omega)

/-- Decimal rendering of a natural number, most significant digit
first. -/
def natRender (n : Nat) : String := String.mk (natRenderAux n)

def isDigitCh (c : Char) : Bool := decide (48 ≤ c.toNat ∧ c.toNat ≤ 57)

def digitsVal (cs : List Char) : Nat :=
  cs.foldl (fun acc c => acc * 10 + (c.toNat - 48)) 0

def natParse (s : String) : Option Nat :=
  if s.data ≠ [] ∧ s.data.all isDigitCh = true then some (digitsVal s.data)
  else none

/-- The Page Number column value: the decimal page number for PDF rows,
the sentinel text for Word rows. -/
def pageField : PageNum → String
  | PageNum.page n => natRender n
  | PageNum.na => "N/A (Word)"

def needsQuote (s : String) : Bool :=
  s.data.any fun c => c == ',' || c == quoteChar || c == '\n' || c == '\r'

def escapeQuote (cs : List Char) : List Char :=
  cs.flatMap fun c => if c = quoteChar then [quoteChar, quoteChar] else [c]

def csvField (s : String) : String :=
  if needsQuote s then String.mk (quoteChar :: (escapeQuote s.data ++ [quoteChar]))
  else s

def csvHeader : String := "Document,KSB Reference,Page Number"

def csvLine (r : MatchRecord) : String :=
  csvField r.document ++ "," ++ csvField r.ksbRef ++ ","
    ++ csvField (pageField r.pageNumber)

def csvBody : List MatchRecord → String
  | [] => ""
  | r :: rs => csvLine r ++ "\n" ++ csvBody rs

/-- Embedding of the CSV export: header line then one line per record in
table order. -/
def to_csv (t : List MatchRecord) : String := csvHeader ++ "\n" ++ csvBody t

/-! ## CSV reader -/

def notDelim (c : Char) : Bool := !(c == ',' || c == '\n')

def parseQuotedRest (cs : List Char) : Option (List Char × List Char) :=
  match cs with
  | [] => none
  | c :: rest =>
    if c = quoteChar then
      match rest with
      | [] => some ([], [])
      | c2 :: rest2 =>
        if c2 = quoteChar then
          match parseQuotedRest rest2 with
          | none => none
          | some p => some (quoteChar :: p.1, p.2)
        else some ([], rest)
    else
      match parseQuotedRest rest with
      | none => none
      | some p => some (c :: p.1, p.2)

def parseField (cs : List Char) : Option (List Char × List Char) :=
  match cs with
  | [] => some ([], [])
  | c :: rest =>
    if c = quoteChar then parseQuotedRest rest
    else some ((c :: rest).takeWhile notDelim, (c :: rest).dropWhile notDelim)

def parsePage (s : String) : Option PageNum :=
  match natParse s with
  | some n => some (PageNum.page n)
  | none => if s = "N/A (Word)" then some PageNum.na else none

def parseRecords (fuel : Nat) (cs : List Char) : Option (List MatchRecord) :=
  if cs = [] then some []
  else
    match fuel with
    | 0 => none
    | fuel2 + 1 =>
      match parseField cs with
      | none => none
      | some (d, r1) =>
        match r1 with
        | ',' :: r2 =>
          match parseField r2 with
          | none => none
          | some (k, r3) =>
            match r3 with
            | ',' :: r4 =>
              match parseField r4 with
              | none => none
              | some (pg, r5) =>
                match r5 with
                | '\n' :: r6 =>
                  match parsePage (String.mk pg) with
                  | none => none
                  | some pn =>
                    match parseRecords fuel2 r6 with
                    | none => none
                    | some rest =>
                      some (MatchRecord.mk (String.mk d) (String.mk k) pn :: rest)
                | _ => none
            | _ => none
        | _ => none

/-- CSV parser: check the exact header line, then parse the record lines
(fields with minimal quoting, three fields per line). -/
def parse_csv (s : String) : Option (List MatchRecord) :=
  if s.data.take (csvHeader ++ "\n").data.length = (csvHeader ++ "\n").data
  then parseRecords s.data.length (s.data.drop (csvHeader ++ "\n").data.length)
  else none

/-! ## XLSX writer and reader (worksheet level) -/

def excelHeaderRow : List Cell :=
  [Cell.str "Document", Cell.str "KSB Reference", Cell.str "Page Number"]

def pageCell : PageNum → Cell
  | PageNum.page n => Cell.num n
  | PageNum.na => Cell.str "N/A (Word)"

def excelRow (r : MatchRecord) : List Cell :=
  [Cell.str r.document, Cell.str r.ksbRef, pageCell r.pageNumber]

/-- Embedding of the XLSX export: a single sheet, header row then one row
per record in table order. -/
def to_excel (t : List MatchRecord) : List (List Cell) :=
  excelHeaderRow :: t.map excelRow

def rowRecord : List Cell → Option MatchRecord
  | [Cell.str d, Cell.str k, Cell.num n] =>
    some { document := d, ksbRef := k, pageNumber := PageNum.page n }
  | [Cell.str d, Cell.str k, Cell.str s] =>
    if s = "N/A (Word)" then
      some { document := d, ksbRef := k, pageNumber := PageNum.na }
    else none
  | _ => none

def read_excel : List (List Cell) → Option (List MatchRecord)
  | [] => none
  | hdr :: rows => if hdr = excelHeaderRow then rows.mapM rowRecord else none

/-- The download artifacts offered to the user: produced only on the
success branch of the handler. -/
inductive ExportArtifact where
  | xlsx : List (List Cell) → ExportArtifact
  | csv : String → ExportArtifact
deriving DecidableEq

def exportsOf : Outcome → List (String × ExportArtifact)
  | Outcome.success t =>
    [("All_KSB_Mappings.xlsx", ExportArtifact.xlsx (to_excel t)),
      ("All_KSB_Mappings.csv", ExportArtifact.csv (to_csv t))]
  | _ => []

/-! ## Round-trip lemmas for the decimal rendering -/

theorem digitChar_toNat (n : Nat) (h : n < 10) : (digitChar n).toNat = 48 + n := by
  interval_cases n <;> rfl

theorem isDigitCh_digitChar (n : Nat) (h : n < 10) :
    isDigitCh (digitChar n) = true := by
  interval_cases n <;> decide

theorem digitsVal_append (xs : List Char) (c : Char) :
    digitsVal (xs ++ [c]) = digitsVal xs * 10 + (c.toNat - 48) := by
  unfold digitsVal
  rw [List.foldl_append]
  rfl

theorem natRenderAux_spec (n : Nat) :
    natRenderAux n ≠ [] ∧ (∀ c ∈ natRenderAux n, isDigitCh c = true) ∧
      digitsVal (natRenderAux n) = n := by
  induction n using Nat.strong_induction_on with
  | _ n ih =>
    by_cases h : n < 10
    · rw [natRenderAux, if_pos h]
      refine ⟨by simp, ?_, ?_⟩
      · intro c hc
        rw [List.mem_singleton] at hc
        subst hc
        exact isDigitCh_digitChar n h
      · show digitsVal ([] ++ [digitChar n]) = n
        rw [digitsVal_append, digitChar_toNat n h]
        show 0 * 10 + (48 + n - 48) = n
        omega
    · rw [natRenderAux, if_neg h]
      have hlt : n / 10 < n := Nat.div_lt_self (by omega) (by omega)
      obtain ⟨hne, hdig, hval⟩ := ih (n / 10) hlt
      refine ⟨by simp, ?_, ?_⟩
      · intro c hc
        rw [List.mem_append] at hc
        rcases hc with hc | hc
        · exact hdig c hc
        · rw [List.mem_singleton] at hc
          subst hc
          exact isDigitCh_digitChar _ (Nat.mod_lt _ (by omega))
      · rw [digitsVal_append, hval, digitChar_toNat _ (Nat.mod_lt _ (by omega))]
        omega

theorem natParse_natRender (n : Nat) : natParse (natRender n) = some n := by
  obtain ⟨hne, hdig, hval⟩ := natRenderAux_spec n
  have hcond : (natRender n).data ≠ [] ∧ (natRender n).data.all isDigitCh = true :=
    ⟨hne, List.all_eq_true.mpr hdig⟩
  unfold natParse
  rw [if_pos hcond]
  show some (digitsVal (natRenderAux n)) = some n
  rw [hval]

theorem parsePage_pageField (pn : PageNum) : parsePage (pageField pn) = some pn := by
  cases pn with
  | page n =>
    show parsePage (natRender n) = some (PageNum.page n)
    unfold parsePage
    rw [natParse_natRender n]
  | na => rfl

/-! ## Round-trip lemmas for the CSV fields -/

theorem takeWhile_append_of_all {p : Char → Bool} :
    ∀ (l : List Char) (d : Char) (rest : List Char),
      (∀ c ∈ l, p c = true) → p d = false →
      (l ++ d :: rest).takeWhile p = l ∧ (l ++ d :: rest).dropWhile p = d :: rest := by
  intro l
  induction l with
  | nil =>
    intro d rest _ hd
    simp [List.takeWhile_cons, List.dropWhile_cons, hd]
  | cons a as ih =>
    intro d rest h hd
    have ha : p a = true := h a (List.mem_cons_self a as)
    have hih := ih d rest (fun c hc => h c (List.mem_cons_of_mem a hc)) hd
    simp [List.takeWhile_cons, List.dropWhile_cons, ha, hih.1, hih.2]

theorem escapeQuote_cons_quote (as : List Char) :
    escapeQuote (quoteChar :: as) = quoteChar :: quoteChar :: escapeQuote as := by
  simp [escapeQuote]

theorem escapeQuote_cons_other (a : Char) (as : List Char) (ha : a ≠ quoteChar) :
    escapeQuote (a :: as) = a :: escapeQuote as := by
  simp [escapeQuote, ha]

theorem parseQuotedRest_cons_other (a : Char) (ha : a ≠ quoteChar) (X : List Char) :
    parseQuotedRest (a :: X)
      = match parseQuotedRest X with
        | none => none
        | some p => some (a :: p.1, p.2) := by
  cases X <;> simp [parseQuotedRest, ha]

theorem parseQuotedRest_quote_quote (X : List Char) :
    parseQuotedRest (quoteChar :: quoteChar :: X)
      = match parseQuotedRest X with
        | none => none
        | some p => some (quoteChar :: p.1, p.2) := by
  simp [parseQuotedRest]

theorem parseQuotedRest_quote_other (c2 : Char) (h : c2 ≠ quoteChar)
    (X : List Char) :
    parseQuotedRest (quoteChar :: c2 :: X) = some ([], c2 :: X) := by
  simp [parseQuotedRest, h]

theorem parseQuotedRest_escape :
    ∀ (cs : List Char) (d : Char) (rest : List Char), d ≠ quoteChar →
      parseQuotedRest (escapeQuote cs ++ quoteChar :: d :: rest)
        = some (cs, d :: rest) := by
  intro cs
  induction cs with
  | nil =>
    intro d rest hd
    show parseQuotedRest (quoteChar :: d :: rest) = some ([], d :: rest)
    exact parseQuotedRest_quote_other d hd rest
  | cons a as ih =>
    intro d rest hd
    by_cases ha : a = quoteChar
    · subst ha
      rw [escapeQuote_cons_quote]
      show parseQuotedRest
          (quoteChar :: quoteChar :: (escapeQuote as ++ quoteChar :: d :: rest)) = _
      rw [parseQuotedRest_quote_quote, ih d rest hd]
    · rw [escapeQuote_cons_other a as ha]
      show parseQuotedRest (a :: (escapeQuote as ++ quoteChar :: d :: rest)) = _
      rw [parseQuotedRest_cons_other a ha, ih d rest hd]

theorem needsQuote_false_chars {s : String} (h : needsQuote s = false) :
    ∀ c ∈ s.data, notDelim c = true ∧ c ≠ quoteChar := by
  intro c hc
  unfold needsQuote at h
  rw [List.any_eq_false] at h
  have hcc := h c hc
  simp only [Bool.or_eq_true, beq_iff_eq, not_or] at hcc
  obtain ⟨⟨⟨h1, h2⟩, h3⟩, h4⟩ := hcc
  refine ⟨?_, h2⟩
  simp [notDelim, h1, h3]

theorem parseField_csvField (f : String) (d : Char) (hd : d = ',' ∨ d = '\n')
    (rest : List Char) :
    parseField ((csvField f).data ++ d :: rest) = some (f.data, d :: rest) := by
  have hdq : d ≠ quoteChar := by rcases hd with h | h <;> subst h <;> decide
  have hnd : notDelim d = false := by rcases hd with h | h <;> subst h <;> decide
  by_cases hq : needsQuote f = true
  · have hdata : (csvField f).data = quoteChar :: (escapeQuote f.data ++ [quoteChar]) := by
      unfold csvField
      rw [if_pos hq]
    rw [hdata]
    show parseField (quoteChar :: ((escapeQuote f.data ++ [quoteChar]) ++ d :: rest)) = _
    simp only [parseField, if_pos rfl]
    rw [List.append_assoc]
    show parseQuotedRest (escapeQuote f.data ++ quoteChar :: d :: rest) = _
    exact parseQuotedRest_escape f.data d rest hdq
  · have hchars := needsQuote_false_chars (show needsQuote f = false by simpa using hq)
    have hdata : (csvField f).data = f.data := by
      unfold csvField
      rw [if_neg hq]
    rw [hdata]
    cases hf : f.data with
    | nil =>
      show parseField (d :: rest) = some ([], d :: rest)
      simp only [parseField]
      rw [if_neg hdq]
      simp [List.takeWhile_cons, List.dropWhile_cons, hnd]
    | cons a as =>
      have hmem : ∀ c ∈ f.data, notDelim c = true := fun c hc => (hchars c hc).1
      have ha2 : a ≠ quoteChar := (hchars a (by rw [hf]; exact List.mem_cons_self a as)).2
      show parseField (a :: (as ++ d :: rest)) = some (a :: as, d :: rest)
      simp only [parseField]
      rw [if_neg ha2]
      have htw := takeWhile_append_of_all (a :: as) d rest
        (fun c hc => hmem c (by rw [hf]; exact hc)) hnd
      rw [show a :: (as ++ d :: rest) = (a :: as) ++ d :: rest from rfl, htw.1, htw.2]

theorem string_mk_data (s : String) : String.mk s.data = s := rfl

theorem csvLine_data (r : MatchRecord) :
    (csvLine r).data
      = (csvField r.document).data ++ ',' ::
          ((csvField r.ksbRef).data ++ ',' ::
            (csvField (pageField r.pageNumber)).data) := by
  unfold csvLine
  simp [String.data_append, List.append_assoc]

theorem csvBody_cons_data (r : MatchRecord) (rs : List MatchRecord) :
    (csvBody (r :: rs)).data = (csvLine r).data ++ '\n' :: (csvBody rs).data := by
  show (csvLine r ++ "\n" ++ csvBody rs).data = _
  simp [String.data_append, List.append_assoc]

theorem parseRecords_csvBody :
    ∀ (t : List MatchRecord) (fuel : Nat), t.length ≤ fuel →
      parseRecords fuel (csvBody t).data = some t := by
  intro t
  induction t with
  | nil =>
    intro fuel _
    show parseRecords fuel [] = some []
    cases fuel <;> rfl
  | cons r rs ih =>
    intro fuel hf
    have hlen : 0 < fuel := by
      have := List.length_cons r rs
      omega
    obtain ⟨g, rfl⟩ : ∃ g, fuel = g + 1 := ⟨fuel - 1, by omega⟩
    have hg : rs.length ≤ g := by
      rw [List.length_cons] at hf
      omega
    rw [csvBody_cons_data, csvLine_data]
    have hne : ((csvField r.document).data ++ ',' ::
        ((csvField r.ksbRef).data ++ ',' ::
          ((csvField (pageField r.pageNumber)).data ++ '\n' :: (csvBody rs).data)))
        ≠ [] := by simp
    simp only [parseRecords, List.append_assoc, List.cons_append, if_neg hne,
      parseField_csvField r.document ',' (Or.inl rfl),
      parseField_csvField r.ksbRef ',' (Or.inl rfl),
      parseField_csvField (pageField r.pageNumber) '\n' (Or.inr rfl),
      string_mk_data, parsePage_pageField, ih g hg]

theorem csvBody_length_ge :
    ∀ t : List MatchRecord, t.length ≤ (csvBody t).data.length := by
  intro t
  induction t with
  | nil => simp
  | cons r rs ih =>
    rw [csvBody_cons_data]
    simp only [List.length_append, List.length_cons]
    omega

/-- The CSV export parses back to exactly the table it was written
from. -/
theorem parse_csv_to_csv (t : List MatchRecord) : parse_csv (to_csv t) = some t := by
  unfold parse_csv to_csv
  have hdata : (csvHeader ++ "\n" ++ csvBody t).data
      = (csvHeader ++ "\n").data ++ (csvBody t).data := by
    rw [String.data_append]
  rw [hdata, List.take_left, List.drop_left, if_pos rfl]
  apply parseRecords_csvBody
  rw [List.length_append]
  have := csvBody_length_ge t
  omega

/-! ## XLSX round trip -/

theorem rowRecord_excelRow (r : MatchRecord) : rowRecord (excelRow r) = some r := by
  cases r with
  | mk d k pn => cases pn <;> rfl

theorem mapM_rowRecord_map :
    ∀ t : List MatchRecord, (t.map excelRow).mapM rowRecord = some t := by
  intro t
  induction t with
  | nil => rfl
  | cons r rs ih =>
    rw [List.map_cons, List.mapM_cons, rowRecord_excelRow, ih]
    rfl

/-- The XLSX export (at worksheet level) parses back to exactly the table
it was written from. -/
theorem read_excel_to_excel (t : List MatchRecord) :
    read_excel (to_excel t) = some t := by
  show (if excelHeaderRow = excelHeaderRow
    then (t.map excelRow).mapM rowRecord else none) = some t
  rw [if_pos rfl, mapM_rowRecord_map]

/-! ## Helper facts about the driver used by the claims -/

theorem process_step_log (m : KsbMap) (acc acc2 : List MatchRecord × List String)
    (f : DocFile) (h : process_step m acc f = Except.ok acc2) :
    ∀ x ∈ acc2.2, x ∈ acc.2 ∨ (x = f.name ∧ m f.name ≠ []) := by
  intro x hx
  unfold process_step at h
  by_cases hterms : m f.name = []
  · rw [if_pos hterms] at h
    obtain rfl : acc = acc2 := by simpa using h
    exact Or.inl hx
  · rw [if_neg hterms] at h
    by_cases hpdf : strEndsWith f.name ".pdf" = true
    · rw [if_pos hpdf] at h
      cases hopen : openPdf f.content with
      | error e => rw [hopen] at h; simp at h
      | ok pages =>
        rw [hopen] at h
        obtain rfl : (acc.1 ++ extract_mappings_pdf pages (m f.name) f.name,
            acc.2 ++ [f.name]) = acc2 := by simpa using h
        rcases List.mem_append.mp hx with h1 | h1
        · exact Or.inl h1
        · exact Or.inr ⟨List.mem_singleton.mp h1, hterms⟩
    · rw [if_neg hpdf] at h
      by_cases hdocx : strEndsWith f.name ".docx" = true
      · rw [if_pos hdocx] at h
        cases hopen : openDocx f.content with
        | error e => rw [hopen] at h; simp at h
        | ok paras =>
          rw [hopen] at h
          obtain rfl : (acc.1 ++ extract_mappings_docx paras (m f.name) f.name,
              acc.2 ++ [f.name]) = acc2 := by simpa using h
          rcases List.mem_append.mp hx with h1 | h1
          · exact Or.inl h1
          · exact Or.inr ⟨List.mem_singleton.mp h1, hterms⟩
      · rw [if_neg hdocx] at h
        obtain rfl : acc = acc2 := by simpa using h
        exact Or.inl hx

theorem scan_go_log (m : KsbMap) :
    ∀ (files : List DocFile) (acc res : List MatchRecord × List String),
      scan_go m acc files = Except.ok res →
      ∀ x ∈ res.2, x ∈ acc.2 ∨ ∃ g, g ∈ files ∧ x = g.name ∧ m g.name ≠ [] := by
  intro files
  induction files with
  | nil =>
    intro acc res h x hx
    obtain rfl : acc = res := by simpa [scan_go] using h
    exact Or.inl hx
  | cons f rest ih =>
    intro acc res h x hx
    rw [scan_go_cons] at h
    cases hstep : process_step m acc f with
    | error e => rw [hstep] at h; simp at h
    | ok acc2 =>
      rw [hstep] at h
      rcases ih acc2 res h x hx with hin | ⟨g, hg, hx2⟩
      · rcases process_step_log m acc acc2 f hstep x hin with h1 | ⟨h1, h2⟩
        · exact Or.inl h1
        · exact Or.inr ⟨f, List.mem_cons_self f rest, h1, h2⟩
      · exact Or.inr ⟨g, List.mem_cons_of_mem f hg, hx2⟩

theorem isEmpty_false_of_append_cons (pre : List DocFile) (f : DocFile)
    (post : List DocFile) : ¬((pre ++ f :: post).isEmpty = true) := by
  cases pre <;> simp

/-! ## Claim C1 -/

/-- Claim C1, counterexample: a healthy first document whose extraction
finds a match, followed by a corrupt second document.  The run ends in
the error outcome and offers no downloads, so the collected records of
the healthy document are not aggregated or exported: one bad document
aborts the batch, contradicting the claim. -/
theorem claim_C1_counterexample :
    run_app
        [DocFile.mk "good.pdf" (DocContent.pdfPages [some "K1 met"]),
          DocFile.mk "bad.pdf" (DocContent.corrupt "boom")]
        (fun _ => ["K1"])
      = Outcome.errorMsg "An error occurred: boom"
    ∧ extract_mappings_pdf [some "K1 met"] ["K1"] "good.pdf"
        = [MatchRecord.mk "good.pdf" "K1" (PageNum.page 1)]
    ∧ exportsOf (run_app
        [DocFile.mk "good.pdf" (DocContent.pdfPages [some "K1 met"]),
          DocFile.mk "bad.pdf" (DocContent.corrupt "boom")]
        (fun _ => ["K1"])) = [] := by
  refine ⟨rfl, rfl, rfl⟩

/-- Claim C1 (amended): the exception handler wraps the whole document
loop, so the first document whose processing raises an error aborts the
batch no matter which documents follow: the scan returns that error, the
run surfaces one error message, and no export artifacts are offered;
records already collected from earlier documents are discarded. -/
theorem claim_C1_amended (pre : List DocFile) (f : DocFile) (post : List DocFile)
    (m : KsbMap) (e : String) (acc : List MatchRecord × List String)
    (hpre : scan_documents pre m = Except.ok acc)
    (hstep : process_step m acc f = Except.error e) :
    scan_documents (pre ++ f :: post) m = Except.error e
    ∧ run_app (pre ++ f :: post) m = Outcome.errorMsg ("An error occurred: " ++ e)
    ∧ exportsOf (run_app (pre ++ f :: post) m) = [] := by
  have hscan : scan_documents (pre ++ f :: post) m = Except.error e := by
    unfold scan_documents at hpre ⊢
    rw [scan_go_append m pre (f :: post) ([], []), hpre]
    show scan_go m acc (f :: post) = Except.error e
    rw [scan_go_cons, hstep]
  have hrun : run_app (pre ++ f :: post) m
      = Outcome.errorMsg ("An error occurred: " ++ e) := by
    unfold run_app
    rw [if_neg (isEmpty_false_of_append_cons pre f post), hscan]
  exact ⟨hscan, hrun, by rw [hrun]; rfl⟩

/-- Claim C1, witness for the amended theorem at a concrete batch. -/
theorem claim_C1_amended_witness :
    scan_documents
        ([DocFile.mk "good.pdf" (DocContent.pdfPages [some "K1 met"])]
          ++ DocFile.mk "bad.pdf" (DocContent.corrupt "boom") :: [])
        (fun _ => ["K1"])
      = Except.error "boom"
    ∧ run_app
        ([DocFile.mk "good.pdf" (DocContent.pdfPages [some "K1 met"])]
          ++ DocFile.mk "bad.pdf" (DocContent.corrupt "boom") :: [])
        (fun _ => ["K1"])
      = Outcome.errorMsg ("An error occurred: " ++ "boom")
    ∧ exportsOf (run_app
        ([DocFile.mk "good.pdf" (DocContent.pdfPages [some "K1 met"])]
          ++ DocFile.mk "bad.pdf" (DocContent.corrupt "boom") :: [])
        (fun _ => ["K1"])) = [] :=
  claim_C1_amended
    [DocFile.mk "good.pdf" (DocContent.pdfPages [some "K1 met"])]
    (DocFile.mk "bad.pdf" (DocContent.corrupt "boom")) []
    (fun _ => ["K1"]) "boom"
    ([MatchRecord.mk "good.pdf" "K1" (PageNum.page 1)], ["good.pdf"])
    rfl rfl

/-! ## Claim C2 -/

/-- Claim C2: the aggregated multi-document table is sorted
lexicographically by the key (Document, KSB Reference) - the data-frame
sort on two columns is a stable lexicographic sort - it is a permutation
of the aggregated records, and it is stable: for every key value the
records carrying that key appear in the sorted table exactly in their
original insertion order. -/
theorem claim_C2 (l : List MatchRecord) :
    List.Sorted keyLE (sort_values l)
    ∧ List.Perm (sort_values l) l
    ∧ ∀ kk : String × String,
        (sort_values l).filter (fun r => decide (recKey r = kk))
          = l.filter (fun r => decide (recKey r = kk)) :=
  ⟨List.sorted_insertionSort keyLE l, List.perm_insertionSort keyLE l,
    fun kk => filter_key_sort_values l kk⟩

/-! ## Claim C3 -/

/-- Claim C3, counterexample: a document is uploaded but zero search
terms are supplied for it.  The run ends with the empty-result warning,
not with the input-validation error outcome, so no input validation
error is reported for the zero-terms case. -/
theorem claim_C3_counterexample :
    run_app [DocFile.mk "a.pdf" (DocContent.pdfPages [some "K1"])]
        (fun _ => ([] : List String))
      = Outcome.emptyWarning
    ∧ Outcome.emptyWarning ≠ Outcome.inputError := by
  exact ⟨rfl, by decide⟩

/-- Claim C3 (amended): with no document uploaded the validation error is
reported and the pipeline is not run; a document whose term list is empty
is silently skipped - no extractor is invoked on it (its name never
enters the extraction log) - and no validation error is reported for
it. -/
theorem claim_C3_amended (m : KsbMap) :
    run_app [] m = Outcome.inputError
    ∧ ∀ (files : List DocFile) (res : List MatchRecord × List String) (f : DocFile),
        scan_documents files m = Except.ok res → f ∈ files → m f.name = [] →
          f.name ∉ res.2 := by
  constructor
  · rfl
  · intro files res f hscan hf hterms hmem
    rcases scan_go_log m files ([], []) res hscan f.name hmem with h1 | ⟨g, _, h2, h3⟩
    · simp at h1
    · rw [← h2] at h3
      exact h3 hterms

/-- Claim C3, witness for the amended theorem at a concrete input. -/
theorem claim_C3_amended_witness :
    run_app [] (fun _ => ([] : List String)) = Outcome.inputError
    ∧ ("a.pdf" : String) ∉ (([] : List MatchRecord), ([] : List String)).2 :=
  ⟨(claim_C3_amended (fun _ => [])).1,
    (claim_C3_amended (fun _ => [])).2
      [DocFile.mk "a.pdf" (DocContent.pdfPages [some "K1"])]
      ([], []) (DocFile.mk "a.pdf" (DocContent.pdfPages [some "K1"]))
      rfl (List.mem_singleton.mpr rfl) rfl⟩

/-! ## Claim C4 -/

/-- Claim C4, counterexample: for the term consisting of the single
character plus - a character with no word constituent at its edges - the
regex word-boundary anchors invert: the term occurs standalone in the
text but the matcher reports no match, refuting the claimed equivalence
for arbitrary terms. -/
theorem claim_C4_counterexample :
    wordSearch "+" "x + y" = false ∧ specStandaloneSearch "+" "x + y" = true := by
  exact ⟨by decide, by decide⟩

/-- Claim C4 (amended): for every term that is nonempty and whose first
and last characters are word characters (letters, digits or underscore,
which covers every KSB code), the matcher reports a match exactly when
the term occurs in the text as a standalone word, case-insensitively and
with every term character taken literally. -/
theorem claim_C4_amended (term text : String)
    (hne : term.data ≠ [])
    (hfirst : isWordAt term.data 0 = true)
    (hlast : isWordAt term.data (term.data.length - 1) = true) :
    wordSearch term text = specStandaloneSearch term text :=
  wordSearch_eq_standalone term text hne hfirst hlast

/-- Claim C4, witness for the amended theorem at a concrete term and
text. -/
theorem claim_C4_amended_witness :
    ("K1" : String).data ≠ []
    ∧ wordSearch "K1" "meets K1 here" = specStandaloneSearch "K1" "meets K1 here"
    ∧ wordSearch "K1" "meets K1 here" = true :=
  ⟨by decide, claim_C4_amended "K1" "meets K1 here" (by decide) (by decide) (by decide),
    by decide⟩

/-! ## Claim C5 -/

/-- Claim C5, counterexample: when the supplied term list repeats a term,
the extractor emits one record per list entry, so a single Word document
containing the term once yields two records for the same (term, document)
pair, refuting the at-most-one claim for arbitrary inputs. -/
theorem claim_C5_counterexample :
    (extract_mappings_docx ["K1 met"] ["K1", "K1"] "w.docx").countP
        (fun r => r.ksbRef == "K1") = 2 := by
  decide

/-- Claim C5 (amended): provided the supplied term list contains no
duplicates, the extractors emit exactly one record per (term, page) pair
for a PDF - regardless of how many occurrences the page holds - and
exactly one record per (term, document) for a Word document, and zero
records when the term does not occur. -/
theorem claim_C5_amended (terms : List String) (hnd : terms.Nodup) :
    (∀ (pages : List (Option String)) (title k : String) (p : Nat),
        (extract_mappings_pdf pages terms title).countP
            (fun r => r.ksbRef == k && r.pageNumber == PageNum.page p)
          = if k ∈ terms ∧ pdfPageHit pages k p = true then 1 else 0)
    ∧ ∀ (paragraphs : List String) (title k : String),
        (extract_mappings_docx paragraphs terms title).countP
            (fun r => r.ksbRef == k)
          = if k ∈ terms ∧
              wordSearch k (String.intercalate "\n" paragraphs) = true
            then 1 else 0 := by
  constructor
  · intro pages title k p
    unfold extract_mappings_pdf pdf_scan
    rw [countP_pdf_scan_go title k terms pages.length hnd p pages 0]
    refine if_congr ?_ rfl rfl
    constructor
    · rintro ⟨h1, _, h3⟩
      exact ⟨h1, by simpa using h3⟩
    · rintro ⟨h1, h2⟩
      have hp : 0 < p := by
        by_contra hp0
        have hzero : p = 0 := by omega
        subst hzero
        rw [show pdfPageHit pages k 0 = false from by simp [pdfPageHit, pageTextAt]] at h2
        simp at h2
      exact ⟨h1, hp, by simpa using h2⟩
  · intro paragraphs title k
    exact countP_extract_docx title k paragraphs terms hnd

/-- Claim C5, witness for the amended theorem at a concrete input. -/
theorem claim_C5_amended_witness :
    (["K1", "S4"] : List String).Nodup
    ∧ (extract_mappings_pdf [some "has K1"] ["K1", "S4"] "d.pdf").countP
        (fun r => r.ksbRef == "K1" && r.pageNumber == PageNum.page 1)
      = if "K1" ∈ ["K1", "S4"] ∧ pdfPageHit [some "has K1"] "K1" 1 = true
        then 1 else 0 :=
  ⟨by decide,
    (claim_C5_amended ["K1", "S4"] (by decide)).1 [some "has K1"] "d.pdf" "K1" 1⟩

/-! ## Claim C6 -/

/-- Claim C6: the PDF scan iterates the pages in physical order with
1-based page numbers - the progress sequence is exactly one update per
page, in order, numbering the pages 1 to the page count - a page whose
extraction yields no text (or empty text) produces no record yet still
receives its progress update, and every emitted record's page number is
the 1-based physical index of a page whose nonempty text contains its
term. -/
theorem claim_C6 (pages : List (Option String)) (terms : List String)
    (title : String) :
    (pdf_scan pages terms title).2
      = (List.range pages.length).map (fun k => (k + 1, pages.length))
    ∧ ∀ r ∈ (pdf_scan pages terms title).1,
        ∃ j s, pages[j]? = some (some s) ∧ s ≠ "" ∧
          r.pageNumber = PageNum.page (j + 1) ∧ r.document = title ∧
          r.ksbRef ∈ terms ∧ wordSearch r.ksbRef s = true := by
  constructor
  · unfold pdf_scan
    rw [pdf_scan_go_progress title terms pages.length pages 0]
    refine List.map_congr_left fun k _ => ?_
    simp
  · intro r hr
    obtain ⟨j, s, h1, h2, h3, h4, h5, h6⟩ :=
      (mem_pdf_scan_go title terms pages.length pages 0 r).mp hr
    exact ⟨j, s, h1, h2, by simpa using h6, h3, h4, h5⟩

/-- Claim C6, witness: the spec's own scenario, two pages with terms K1,
S4, B2; the record (K1, page 1) is produced and the theorem locates it on
physical page 1. -/
theorem claim_C6_witness :
    (pdf_scan [some "Demonstrates K1 and S4 clearly.", some "No references here."]
        ["K1", "S4", "B2"] "d.pdf").2 = [(1, 2), (2, 2)]
    ∧ ∃ j s,
        ([some "Demonstrates K1 and S4 clearly.", some "No references here."]
          : List (Option String))[j]? = some (some s) ∧ s ≠ "" ∧
        (MatchRecord.mk "d.pdf" "K1" (PageNum.page 1)).pageNumber
          = PageNum.page (j + 1) ∧
        (MatchRecord.mk "d.pdf" "K1" (PageNum.page 1)).document = "d.pdf" ∧
        (MatchRecord.mk "d.pdf" "K1" (PageNum.page 1)).ksbRef
          ∈ ["K1", "S4", "B2"] ∧
        wordSearch (MatchRecord.mk "d.pdf" "K1" (PageNum.page 1)).ksbRef s
          = true :=
  ⟨by decide,
    (claim_C6 [some "Demonstrates K1 and S4 clearly.", some "No references here."]
        ["K1", "S4", "B2"] "d.pdf").2
      (MatchRecord.mk "d.pdf" "K1" (PageNum.page 1)) (by decide)⟩

/-! ## Claim C7 -/

/-- Claim C7: a record is emitted for a Word document exactly when its
term is among the search terms and is found - whole word,
case-insensitive - in the single blob obtained by joining all paragraph
texts in document order with newline separators; every such record
carries the document title and the sentinel page marker instead of an
integer page number. -/
theorem claim_C7 (paragraphs terms : List String) (title : String)
    (r : MatchRecord) :
    r ∈ extract_mappings_docx paragraphs terms title ↔
      r.document = title ∧ r.pageNumber = PageNum.na ∧ r.ksbRef ∈ terms ∧
        wordSearch r.ksbRef (String.intercalate "\n" paragraphs) = true :=
  mem_extract_docx paragraphs terms title r

/-! ## Claim C8 -/

/-- Claim C8: a valid run (documents uploaded) whose scan succeeds with
zero collected records ends in the empty-result warning outcome - not an
error - and offers no export artifacts; error outcomes offer no export
artifacts either. -/
theorem claim_C8 (files : List DocFile) (m : KsbMap) (log : List String)
    (hne : files ≠ [])
    (hscan : scan_documents files m = Except.ok ([], log)) :
    run_app files m = Outcome.emptyWarning
    ∧ exportsOf (run_app files m) = []
    ∧ (∀ e, exportsOf (Outcome.errorMsg e) = [])
    ∧ Outcome.emptyWarning ≠ Outcome.inputError := by
  have hrun : run_app files m = Outcome.emptyWarning := by
    unfold run_app
    have hemp : ¬(files.isEmpty = true) := by
      cases files with
      | nil => exact absurd rfl hne
      | cons a l => simp
    rw [if_neg hemp, hscan]
    rfl
  exact ⟨hrun, by rw [hrun]; rfl, fun e => rfl, by decide⟩

/-- Claim C8, witness: one document on which extraction runs and finds
nothing. -/
theorem claim_C8_witness :
    run_app [DocFile.mk "a.pdf" (DocContent.pdfPages [some "no hits"])]
        (fun _ => ["K9"]) = Outcome.emptyWarning
    ∧ exportsOf (run_app [DocFile.mk "a.pdf" (DocContent.pdfPages [some "no hits"])]
        (fun _ => ["K9"])) = []
    ∧ (∀ e, exportsOf (Outcome.errorMsg e) = [])
    ∧ Outcome.emptyWarning ≠ Outcome.inputError :=
  claim_C8 [DocFile.mk "a.pdf" (DocContent.pdfPages [some "no hits"])]
    (fun _ => ["K9"]) ["a.pdf"] (by simp) rfl

/-! ## Claim C9 -/

/-- Claim C9: writing a table to CSV (header line plus one UTF-8
comma-delimited, minimally quoted line per record) and parsing it back
yields exactly the original records, and the worksheet-level XLSX export
likewise round-trips the table: the string attributes and the
integer-or-sentinel page attribute are preserved losslessly. -/
theorem claim_C9 (t : List MatchRecord) :
    parse_csv (to_csv t) = some t ∧ read_excel (to_excel t) = some t :=
  ⟨parse_csv_to_csv t, read_excel_to_excel t⟩

/-! ## Claim C10 -/

/-- Claim C10: for a zero-page PDF the extractor returns the empty record
list and performs no progress computation at all - the progress sequence
has exactly one entry per page, each carrying the positive 1-based page
index and the total page count as the division's operands, so the
fraction is computed only inside the loop and only when the page count is
at least 1. -/
theorem claim_C10 (terms : List String) (title : String)
    (pages : List (Option String)) :
    extract_mappings_pdf [] terms title = []
    ∧ (pdf_scan [] terms title).2 = []
    ∧ (pdf_scan pages terms title).2
        = (List.range pages.length).map (fun k => (k + 1, pages.length)) := by
  refine ⟨rfl, rfl, ?_⟩
  unfold pdf_scan
  rw [pdf_scan_go_progress title terms pages.length pages 0]
  refine List.map_congr_left fun k _ => ?_
  simp
